import Mathlib

/-!
Verification of the streaming-transcription session engine of
`live_whisper/server.py` (sliding audio window, segment stabilizer,
session registry) against its natural-language specification.

Python floats are modelled as exact rationals (ℚ); none of the verified
paths depends on binary rounding.  Mutable object state is modelled as
explicit record-passing.  Outbound websocket messages are modelled as
values of `ServerMsg` collected by the operation that sends them.
-/

/-- Sample rate, fixed at 16000 Hz for the whole system (`RATE`). -/
def RATE : ℕ := 16000

/-- `self.no_speech_thresh = 0.45` set in `ServeClientFasterWhisper.__init__`. -/
def no_speech_thresh : ℚ := 45 / 100

/-- A raw segment returned by the transcription capability: relative start and
end times in seconds, text, and a no-speech probability. -/
structure RawSeg where
  start : ℚ
  end_ : ℚ
  text : String
  no_speech_prob : ℚ
deriving DecidableEq

/-- A transcript entry built by `format_segment`.  The source renders `start`
and `end` as 3-decimal strings; we keep the exact times handed to
`format_segment` and model the string rendering separately as `fmt3`. -/
structure Segment where
  start : ℚ
  end_ : ℚ
  text : String
deriving DecidableEq

/-- `format_segment(start, end, text)`: the stored entry.  (The source packages
the times as `"{:.3f}".format(...)` strings; see `fmt3` for that rendering.) -/
def format_segment (start end_ : ℚ) (text : String) : Segment :=
  ⟨start, end_, text⟩

/-- The 3-decimal rendering `"{:.3f}".format(q)` used by `format_segment`
(round to the nearest thousandth; Python rounds the underlying double,
ties do not occur at any value used in the claims). -/
def fmt3 (q : ℚ) : String :=
  let n : ℤ := round (q * 1000)
  let sign := if n < 0 then "-" else ""
  let a := n.natAbs
  let fracStr :=
    if a % 1000 < 10 then "00" ++ toString (a % 1000)
    else if a % 1000 < 100 then "0" ++ toString (a % 1000)
    else toString (a % 1000)
  sign ++ toString (a / 1000) ++ "." ++ fracStr

/-- The per-session mutable state of `ServeClientBase` /
`ServeClientFasterWhisper` used by the audio window and the stabilizer:
`frames_np` (the buffer, `none` before any audio arrives), `frames_offset`
(buffer origin, seconds), `timestamp_offset` (processing cursor, seconds),
`text` (text history), `transcript` (committed transcript), `prev_out` and
`same_output_threshold` (repetition detection).  `current_out` is reset to
the empty string at the top of every `update_segments` call and only read
within it, so it is modelled as a local of that function. -/
structure SessionState where
  frames_np : Option (List ℚ)
  frames_offset : ℚ
  timestamp_offset : ℚ
  text : List String
  transcript : List Segment
  prev_out : String
  same_output_threshold : ℕ
deriving DecidableEq

/-- The state right after `ServeClientBase.__init__`. -/
def initState : SessionState :=
  { frames_np := none
    frames_offset := 0
    timestamp_offset := 0
    text := []
    transcript := []
    prev_out := ""
    same_output_threshold := 0 }

/-- `ServeClientBase.add_frames(frame_np)`.  Faithful to the source, including
its trim condition `self.frames_np[0] > 45 * self.RATE`, which reads the
FIRST SAMPLE VALUE of the buffer (`frames_np[0]`), not the buffer length
(`frames_np.shape[0]`).  `headI` models the `[0]` indexing (the source would
raise `IndexError` on an empty non-`None` buffer, which no caller produces). -/
def add_frames (st : SessionState) (frame_np : List ℚ) : SessionState :=
  let st1 :=
    match st.frames_np with
    | some fs =>
        if fs.headI > 45 * (RATE : ℚ) then
          let fo := st.frames_offset + 30
          { st with
              frames_np := some (fs.drop (30 * RATE))
              frames_offset := fo
              timestamp_offset :=
                if st.timestamp_offset < fo then fo else st.timestamp_offset }
        else st
    | none => st
  match st1.frames_np with
  | none => { st1 with frames_np := some frame_np }
  | some fs => { st1 with frames_np := some (fs ++ frame_np) }

/-- A 46-second buffer of silence: 736000 samples, all of value 0. -/
def silence46s : List ℚ := (0 : ℚ) :: List.replicate (46 * RATE - 1) (0 : ℚ)

/-- C1: the spec says an append to a window already holding more than 45
seconds of audio drops the oldest 30 seconds and advances the buffer origin
by exactly 30, leaving the window at most 45 seconds long.  The source's own
docstring says the same, but the code compares the first sample's VALUE
(`frames_np[0]`) to `45 * RATE` instead of the buffer length, so on a 46-second
buffer of silence (736000 zero samples) no trim happens: the buffer grows to
736001 samples (> 45 s) and `frames_offset` stays 0. -/
theorem C1_add_frames_trim_dead :
    (add_frames { initState with frames_np := some silence46s } [0]).frames_offset = 0 ∧
      (add_frames { initState with frames_np := some silence46s } [0]).timestamp_offset = 0 ∧
      (add_frames { initState with frames_np := some silence46s } [0]).frames_np
          = some (silence46s ++ [0]) ∧
      (silence46s ++ [0]).length = 46 * RATE + 1 ∧
      45 * RATE < (silence46s ++ [0]).length := by
  have hhead : silence46s.headI = 0 := rfl
  have hcond : ¬ silence46s.headI > 45 * (RATE : ℚ) := by
    rw [hhead]
    norm_num [RATE]
  have hstep : add_frames { initState with frames_np := some silence46s } [0]
      = { initState with frames_np := some (silence46s ++ [0]) } := by
    simp only [add_frames, if_neg hcond]
  have hlen1 : silence46s.length = 46 * RATE := by
    rw [silence46s, List.length_cons, List.length_replicate]
    norm_num [RATE]
  have hlen : (silence46s ++ [0]).length = 46 * RATE + 1 := by
    rw [List.length_append, hlen1, List.length_singleton]
  refine ⟨?_, ?_, ?_, hlen, ?_⟩
  · rw [hstep]
    rfl
  · rw [hstep]
    rfl
  · rw [hstep]
  · rw [hlen]
    norm_num [RATE]

/-- Python's `min(a, b)` on two floats (returns `a` on ties, like `min` on ℚ;
written with an explicit `if` so that it evaluates by kernel reduction). -/
def pymin (a b : ℚ) : ℚ := if a ≤ b then a else b

/-- The body of the `for i, s in enumerate(segments[:-1])` loop of
`ServeClientFasterWhisper.update_segments`: the accumulator carries the
mutable `(self.text, self.transcript, offset)` triple.  The text history is
extended BEFORE the zero-length and no-speech filters; `offset` is
overwritten by each committed complete segment. -/
def processComplete (toff d : ℚ) (acc : List String × List Segment × Option ℚ)
    (s : RawSeg) : List String × List Segment × Option ℚ :=
  let text := acc.1 ++ [s.text]
  let start := toff + s.start
  let e := toff + pymin d s.end_
  if start ≥ e then (text, acc.2.1, acc.2.2)
  else if s.no_speech_prob > no_speech_thresh then (text, acc.2.1, acc.2.2)
  else (text, acc.2.1 ++ [format_segment start e s.text], some (pymin d s.end_))

/-- The complete-segment loop of `update_segments`, folded over
`segments[:-1]`.  (The source's `if len(segments) > 1` guard is redundant:
for a single segment the slice is empty and the loop body never runs.) -/
def afterComplete (st : SessionState) (segments : List RawSeg) (duration : ℚ) :
    List String × List Segment × Option ℚ :=
  segments.dropLast.foldl (processComplete st.timestamp_offset duration)
    (st.text, st.transcript, none)

/-- The tail of `update_segments` after the complete-segment loop: the
tentative (last) segment, repetition detection, commit-on-stability, and the
final `timestamp_offset` update.  `last` is `segments[-1]`; `acc` is the
`(text, transcript, offset)` triple left by the loop.  `current_out` starts
as the empty string and is extended with `segments[-1].text` only when that
segment passes the no-speech threshold. -/
def finishSegments (st : SessionState) (last : RawSeg) (duration : ℚ)
    (acc : List String × List Segment × Option ℚ) : SessionState × Option Segment :=
  let current_out := if last.no_speech_prob ≤ no_speech_thresh then last.text else ""
  let last_segment : Option Segment :=
    if last.no_speech_prob ≤ no_speech_thresh then
      some (format_segment (st.timestamp_offset + last.start)
        (st.timestamp_offset + pymin duration last.end_) current_out)
    else none
  let thr : ℕ :=
    if current_out.trim = st.prev_out.trim ∧ current_out ≠ "" then
      st.same_output_threshold + 1
    else 0
  if 5 < thr then
    let commitNew : Bool :=
      match acc.1.getLast? with
      | none => true
      | some t => t.trim.toLower != current_out.trim.toLower
    ({ st with
        text := if commitNew then acc.1 ++ [current_out] else acc.1
        transcript :=
          if commitNew then
            acc.2.1 ++ [format_segment st.timestamp_offset
              (st.timestamp_offset + duration) current_out]
          else acc.2.1
        same_output_threshold := 0
        timestamp_offset := st.timestamp_offset + duration }, none)
  else
    ({ st with
        text := acc.1
        transcript := acc.2.1
        same_output_threshold := thr
        prev_out := current_out
        timestamp_offset :=
          match acc.2.2 with
          | some o => st.timestamp_offset + o
          | none => st.timestamp_offset }, last_segment)

/-- `ServeClientFasterWhisper.update_segments(segments, duration)`: returns the
updated session state together with the returned `last_segment`.  The source
indexes `segments[-1]` and so is only ever called with a non-empty list
(`handle_transcription_output` checks `len(result)`); on `[]` it would raise
`IndexError`, modelled here by returning the state unchanged. -/
def update_segments (st : SessionState) (segments : List RawSeg) (duration : ℚ) :
    SessionState × Option Segment :=
  match segments.getLast? with
  | none => (st, none)
  | some last => finishSegments st last duration (afterComplete st segments duration)

/-- A sequence of stabilizer invocations: fold `update_segments` over a list of
`(segments, duration)` calls, keeping the session state. -/
def run_calls (st : SessionState) (calls : List (List RawSeg × ℚ)) : SessionState :=
  calls.foldl (fun s c => (update_segments s c.1 c.2).1) st

/-- The raw segments of the spec's end-to-end scenario:
`[{0.0, 1.0, "hi", 0.1}, {1.0, 1.9, "there", 0.1}]`. -/
def c8segs : List RawSeg := [⟨0, 1, "hi", 1 / 10⟩, ⟨1, 19 / 10, "there", 1 / 10⟩]

/-- C8: one stabilizer call on a fresh session (`processedCursor = 0`) with
duration 2.0 and raw segments `[{0,1,"hi",0.1},{1,1.9,"there",0.1}]` commits
exactly `{start 0.000, end 1.000, "hi"}`, returns the tentative segment
`"there"`, and advances `processedCursor` to 1.0. -/
theorem C8_first_poll :
    (update_segments initState c8segs 2).1.transcript = [format_segment 0 1 "hi"] ∧
      (update_segments initState c8segs 2).2 = some (format_segment 1 (19 / 10) "there") ∧
      ((update_segments initState c8segs 2).2.map Segment.text) = some "there" ∧
      (update_segments initState c8segs 2).1.timestamp_offset = 1 ∧
      fmt3 0 = "0.000" ∧ fmt3 1 = "1.000" := by
  refine ⟨?_, ?_, ?_, ?_, ?_, ?_⟩ <;> with_unfolding_all rfl

/-- One stabilizer call carrying a single (hence tentative-only) raw segment
with text `"hi"`, below the no-speech threshold, duration 2. -/
def c2call : List RawSeg × ℚ := ([⟨0, 19 / 10, "hi", 1 / 10⟩], 2)

/-- C2 as stated is false on the code: feeding the identical non-empty
tentative text for 6 consecutive calls from a fresh session commits NOTHING.
The first call finds `prev_out` empty and only sets it; the counter then
reaches 5 on the 6th call, and the commit guard is the strict `> 5`, so the
single committed entry only appears on the 7th call. -/
theorem C2_six_calls_no_commit :
    (run_calls initState (List.replicate 6 c2call)).transcript = [] ∧
      (run_calls initState (List.replicate 6 c2call)).same_output_threshold = 5 := by
  constructor
  · with_unfolding_all rfl
  · with_unfolding_all rfl

/-- Six repeats of the `"hi"` tentative call followed by a call that carries a
complete segment (`"a"`, from 1 s to 2 s) ahead of the still-repeating
tentative `"hi"`, with duration 10. -/
def c3calls : List (List RawSeg × ℚ) :=
  List.replicate 6 c2call ++ [([⟨1, 2, "a", 0⟩, ⟨2, 3, "hi", 1 / 10⟩], 10)]

/-- C3 as stated is false on the code: on the 7th call of `c3calls` the
complete segment commits `{1, 2, "a"}` first, and the commit-on-stability
rule then commits `{0, 10, "hi"}` — spanning from `processedCursor`, which
lies BEFORE the complete segment's start — so adjacent committed starts
decrease (1 > 0). -/
theorem C3_starts_can_decrease :
    (run_calls initState c3calls).transcript
        = [format_segment 1 2 "a", format_segment 0 10 "hi"] ∧
      (format_segment 0 10 "hi").start < (format_segment 1 2 "a").start := by
  constructor
  · with_unfolding_all rfl
  · show (0 : ℚ) < 1
    norm_num

/-- A single-segment call whose (below-threshold) text differs, after
trimming, from `prev_out`: the repetition counter resets to 0, `prev_out`
is set to the new text, and nothing else changes; the tentative segment is
returned. -/
theorem update_single_new (st : SessionState) (seg : RawSeg) (d : ℚ)
    (hn : seg.no_speech_prob ≤ no_speech_thresh)
    (hne : ¬ seg.text.trim = st.prev_out.trim) :
    update_segments st [seg] d
      = ({ st with
            prev_out := seg.text
            same_output_threshold := 0 },
         some (format_segment (st.timestamp_offset + seg.start)
           (st.timestamp_offset + pymin d seg.end_) seg.text)) := by
  have hgl : ([seg] : List RawSeg).getLast? = some seg := rfl
  have hdl : ([seg] : List RawSeg).dropLast = [] := rfl
  simp only [update_segments, hgl, afterComplete, hdl, List.foldl_nil, finishSegments]
  simp [hn, hne]

/-- A single-segment call repeating the previous non-empty text while the
counter is still below 5: the counter increments and the tentative segment
is returned; transcript, text history and `timestamp_offset` are unchanged. -/
theorem update_single_repeat (st : SessionState) (seg : RawSeg) (d : ℚ)
    (hn : seg.no_speech_prob ≤ no_speech_thresh)
    (heq : seg.text.trim = st.prev_out.trim) (hne : seg.text ≠ "")
    (hthr : st.same_output_threshold < 5) :
    update_segments st [seg] d
      = ({ st with
            prev_out := seg.text
            same_output_threshold := st.same_output_threshold + 1 },
         some (format_segment (st.timestamp_offset + seg.start)
           (st.timestamp_offset + pymin d seg.end_) seg.text)) := by
  have hgl : ([seg] : List RawSeg).getLast? = some seg := rfl
  have hdl : ([seg] : List RawSeg).dropLast = [] := rfl
  have h5 : ¬ (5 < st.same_output_threshold + 1) := by omega
  simp only [update_segments, hgl, afterComplete, hdl, List.foldl_nil, finishSegments]
  simp [hn, heq, hne, h5]

/-- A single-segment call repeating the previous non-empty text with the
counter already at 5 and an empty text history: the commit fires, appending
`{timestamp_offset, timestamp_offset + duration, text}` to the transcript,
resetting the counter, advancing the cursor by the full duration, and
returning no tentative segment. -/
theorem update_single_commit (st : SessionState) (seg : RawSeg) (d : ℚ)
    (hn : seg.no_speech_prob ≤ no_speech_thresh)
    (heq : seg.text.trim = st.prev_out.trim) (hne : seg.text ≠ "")
    (hthr : st.same_output_threshold = 5) (htext : st.text = []) :
    update_segments st [seg] d
      = ({ st with
            text := [seg.text]
            transcript := st.transcript
              ++ [format_segment st.timestamp_offset (st.timestamp_offset + d) seg.text]
            same_output_threshold := 0
            timestamp_offset := st.timestamp_offset + d }, none) := by
  have hgl : ([seg] : List RawSeg).getLast? = some seg := rfl
  have hdl : ([seg] : List RawSeg).dropLast = [] := rfl
  simp only [update_segments, hgl, afterComplete, hdl, List.foldl_nil, finishSegments]
  simp [hn, heq, hne, hthr, htext]

/-- Iterating the repeating single-segment call while the counter stays at or
below 5 only increments the counter (and rewrites `prev_out` with the same
text). -/
theorem run_calls_repeat_phase (T : String) (s0 e0 nsp d : ℚ)
    (hn : nsp ≤ no_speech_thresh) (hne : T ≠ "") :
    ∀ (n : ℕ) (st : SessionState), st.prev_out = T →
      st.same_output_threshold + n ≤ 5 →
      run_calls st (List.replicate n ([⟨s0, e0, T, nsp⟩], d))
        = { st with
            prev_out := T
            same_output_threshold := st.same_output_threshold + n } := by
  intro n
  induction n with
  | zero =>
      intro st hprev _
      simp only [List.replicate, run_calls, List.foldl_nil, Nat.add_zero]
      cases st
      simp only at hprev
      simp [hprev]
  | succ m ih =>
      intro st hprev hle
      have hthr : st.same_output_threshold < 5 := by omega
      have hstep : run_calls st (List.replicate (m + 1) ([⟨s0, e0, T, nsp⟩], d))
          = run_calls (update_segments st [⟨s0, e0, T, nsp⟩] d).1
              (List.replicate m ([⟨s0, e0, T, nsp⟩], d)) := by
        rw [List.replicate_succ]
        rfl
      rw [hstep, update_single_repeat st ⟨s0, e0, T, nsp⟩ d hn (by rw [hprev]) hne hthr]
      rw [ih _ rfl (by simp only; omega)]
      have harith : st.same_output_threshold + 1 + m
          = st.same_output_threshold + (m + 1) := by omega
      rw [harith]

/-- A session state that is fresh except for the repetition-detection fields:
cursor at `to0`, empty buffer/history/transcript, `prev_out = p`,
`same_output_threshold = k`. -/
def stabState (to0 : ℚ) (p : String) (k : ℕ) : SessionState :=
  ⟨none, 0, to0, [], [], p, k⟩

/-- Unfolding one stabilizer call at the head of a call sequence. -/
theorem run_calls_cons (st : SessionState) (a : List RawSeg) (q : ℚ)
    (cs : List (List RawSeg × ℚ)) :
    run_calls st ((a, q) :: cs) = run_calls (update_segments st a q).1 cs := rfl

/-- Peeling the final stabilizer call off a call sequence. -/
theorem run_calls_snoc (st : SessionState) (a : List RawSeg) (q : ℚ)
    (cs : List (List RawSeg × ℚ)) :
    run_calls st (cs ++ [(a, q)]) = (update_segments (run_calls st cs) a q).1 := by
  show List.foldl _ _ _ = _
  rw [List.foldl_append]
  rfl

/-- C2 amended: starting from a fresh session with `processedCursor = to0`,
the identical non-empty tentative text must be fed SEVEN consecutive times
(the first appearance plus six repeats — the counter reaches 6 and the guard
is the strict `> 5`) before the commit fires; the 7th call then appends
exactly one committed entry spanning `[processedCursor, processedCursor +
duration]`, resets the repeat counter to 0, advances the cursor by the full
duration, and returns no tentative segment. -/
theorem C2_seventh_call_commits (T : String) (s0 e0 nsp d to0 : ℚ)
    (hT : T.trim ≠ "") (hn : nsp ≤ no_speech_thresh) :
    (run_calls (stabState to0 "" 0) (List.replicate 7 ([⟨s0, e0, T, nsp⟩], d))).transcript
        = [format_segment to0 (to0 + d) T] ∧
      (run_calls (stabState to0 "" 0)
          (List.replicate 7 ([⟨s0, e0, T, nsp⟩], d))).same_output_threshold = 0 ∧
      (run_calls (stabState to0 "" 0)
          (List.replicate 7 ([⟨s0, e0, T, nsp⟩], d))).timestamp_offset = to0 + d ∧
      (update_segments (run_calls (stabState to0 "" 0)
          (List.replicate 6 ([⟨s0, e0, T, nsp⟩], d))) [⟨s0, e0, T, nsp⟩] d).2 = none := by
  have hemp : ("" : String).trim = "" := by with_unfolding_all rfl
  have hne : T ≠ "" := by
    intro h
    apply hT
    rw [h, hemp]
  have h1 : update_segments (stabState to0 "" 0) [⟨s0, e0, T, nsp⟩] d
      = (stabState to0 T 0,
         some (format_segment (to0 + s0) (to0 + pymin d e0) T)) := by
    rw [update_single_new (stabState to0 "" 0) ⟨s0, e0, T, nsp⟩ d hn
      (by rw [show (stabState to0 "" 0).prev_out = "" from rfl, hemp]; exact hT)]
    rfl
  have h5 : run_calls (stabState to0 T 0) (List.replicate 5 ([⟨s0, e0, T, nsp⟩], d))
      = stabState to0 T 5 := by
    rw [run_calls_repeat_phase T s0 e0 nsp d hn hne 5 (stabState to0 T 0) rfl
      (by norm_num [stabState])]
    rfl
  have h6 : run_calls (stabState to0 "" 0) (List.replicate 6 ([⟨s0, e0, T, nsp⟩], d))
      = stabState to0 T 5 := by
    rw [show (6 : ℕ) = 5 + 1 from rfl, List.replicate_succ, run_calls_cons, h1]
    exact h5
  have h7 : update_segments (stabState to0 T 5) [⟨s0, e0, T, nsp⟩] d
      = (⟨none, 0, to0 + d, [T], [format_segment to0 (to0 + d) T], T, 0⟩, none) := by
    rw [update_single_commit (stabState to0 T 5) ⟨s0, e0, T, nsp⟩ d hn rfl hne rfl rfl]
    rfl
  have hsplit : run_calls (stabState to0 "" 0) (List.replicate 7 ([⟨s0, e0, T, nsp⟩], d))
      = (update_segments (run_calls (stabState to0 "" 0)
          (List.replicate 6 ([⟨s0, e0, T, nsp⟩], d))) [⟨s0, e0, T, nsp⟩] d).1 := by
    rw [show (7 : ℕ) = 6 + 1 from rfl, List.replicate_succ', run_calls_snoc]
  refine ⟨?_, ?_, ?_, ?_⟩
  · rw [hsplit, h6, h7]
  · rw [hsplit, h6, h7]
  · rw [hsplit, h6, h7]
  · rw [h6, h7]

/-- Witness for `C2_seventh_call_commits` at `T = "hi"`, `duration 2`,
segment `(0, 1.9, "hi", 0.1)`, cursor 0. -/
theorem C2_seventh_call_commits_witness :
    ("hi" : String).trim ≠ "" ∧ (1 / 10 : ℚ) ≤ no_speech_thresh ∧
      (run_calls (stabState 0 "" 0) (List.replicate 7 ([⟨0, 19 / 10, "hi", 1 / 10⟩], 2))).transcript
        = [format_segment 0 (0 + 2) "hi"] := by
  refine ⟨?_, ?_, ?_⟩
  · with_unfolding_all decide
  · norm_num [no_speech_thresh]
  · exact (C2_seventh_call_commits ("hi") 0 (19 / 10) (1 / 10) 2 0
      (by with_unfolding_all decide) (by norm_num [no_speech_thresh])).1

/-- The complete-segment loop appends every processed segment's text to the
text history (before any filter), and grows the transcript only by entries
built from segments that pass both the zero-length and the no-speech filter. -/
theorem foldl_processComplete (toff d : ℚ) :
    ∀ (l : List RawSeg) (acc : List String × List Segment × Option ℚ),
      (l.foldl (processComplete toff d) acc).1 = acc.1 ++ l.map RawSeg.text ∧
      ∃ new, (l.foldl (processComplete toff d) acc).2.1 = acc.2.1 ++ new ∧
        ∀ e ∈ new, ∃ s ∈ l, s.no_speech_prob ≤ no_speech_thresh ∧ e.text = s.text ∧
          e.start = toff + s.start ∧ e.end_ = toff + pymin d s.end_ ∧ e.start < e.end_ := by
  intro l
  induction l with
  | nil =>
      intro acc
      refine ⟨by simp, [], by simp, by simp⟩
  | cons s t ih =>
      intro acc
      rw [List.foldl_cons]
      by_cases h1 : toff + s.start ≥ toff + pymin d s.end_
      · have hpc : processComplete toff d acc s = (acc.1 ++ [s.text], acc.2.1, acc.2.2) := by
          simp [processComplete, h1]
        rw [hpc]
        obtain ⟨ht, new, htr, hp⟩ := ih (acc.1 ++ [s.text], acc.2.1, acc.2.2)
        refine ⟨by rw [ht]; simp, new, by simpa using htr, ?_⟩
        intro e he
        obtain ⟨s', hs', hrest⟩ := hp e he
        exact ⟨s', List.mem_cons_of_mem _ hs', hrest⟩
      · by_cases h2 : s.no_speech_prob > no_speech_thresh
        · have hpc : processComplete toff d acc s = (acc.1 ++ [s.text], acc.2.1, acc.2.2) := by
            simp [processComplete, h1, h2]
          rw [hpc]
          obtain ⟨ht, new, htr, hp⟩ := ih (acc.1 ++ [s.text], acc.2.1, acc.2.2)
          refine ⟨by rw [ht]; simp, new, by simpa using htr, ?_⟩
          intro e he
          obtain ⟨s', hs', hrest⟩ := hp e he
          exact ⟨s', List.mem_cons_of_mem _ hs', hrest⟩
        · have hpc : processComplete toff d acc s
              = (acc.1 ++ [s.text],
                 acc.2.1 ++ [format_segment (toff + s.start) (toff + pymin d s.end_) s.text],
                 some (pymin d s.end_)) := by
            simp [processComplete, h1, h2]
          rw [hpc]
          obtain ⟨ht, new, htr, hp⟩ :=
            ih (acc.1 ++ [s.text],
              acc.2.1 ++ [format_segment (toff + s.start) (toff + pymin d s.end_) s.text],
              some (pymin d s.end_))
          refine ⟨by rw [ht]; simp,
            format_segment (toff + s.start) (toff + pymin d s.end_) s.text :: new,
            by rw [htr]; simp, ?_⟩
          intro e he
          rcases List.mem_cons.mp he with he | he'
          · subst he
            exact ⟨s, List.mem_cons_self s t, not_lt.mp h2, rfl, rfl, rfl, not_le.mp h1⟩
          · obtain ⟨s', hs', hrest⟩ := hp e he'
            exact ⟨s', List.mem_cons_of_mem _ hs', hrest⟩

/-- Case analysis of the stabilizer tail: it appends at most one entry (the
commit-on-stability entry) to the transcript; any such entry carries the
below-threshold last segment's text and spans exactly
`[timestamp_offset, timestamp_offset + duration]`; and if the last segment is
above the no-speech threshold, no tentative segment is returned. -/
theorem finishSegments_cases (st : SessionState) (last : RawSeg) (d : ℚ)
    (acc : List String × List Segment × Option ℚ) :
    (∃ extra : List Segment,
      extra.length ≤ 1 ∧
      (finishSegments st last d acc).1.text = acc.1 ++ extra.map Segment.text ∧
      (finishSegments st last d acc).1.transcript = acc.2.1 ++ extra ∧
      ∀ e ∈ extra, last.no_speech_prob ≤ no_speech_thresh ∧ e.text = last.text ∧
        e.start = st.timestamp_offset ∧ e.end_ = st.timestamp_offset + d) ∧
    (¬ last.no_speech_prob ≤ no_speech_thresh →
      (finishSegments st last d acc).2 = none) := by
  by_cases hn : last.no_speech_prob ≤ no_speech_thresh
  · by_cases hrep : last.text.trim = st.prev_out.trim ∧ last.text ≠ ""
    · by_cases h5 : 5 < st.same_output_threshold + 1
      · cases hacc : acc.1.getLast? with
        | none =>
            refine ⟨⟨[format_segment st.timestamp_offset (st.timestamp_offset + d) last.text],
              by simp, ?_, ?_, ?_⟩, fun h => absurd hn h⟩
            · simp [finishSegments, hacc, hn, hrep, h5, format_segment]
            · simp [finishSegments, hacc, hn, hrep, h5]
            · intro e he
              rw [List.mem_singleton] at he
              subst he
              exact ⟨hn, rfl, rfl, rfl⟩
        | some tl =>
            by_cases hdup : tl.trim.toLower = last.text.trim.toLower
            · refine ⟨⟨[], by simp, ?_, ?_, by simp⟩, fun h => absurd hn h⟩
              · simp [finishSegments, hacc, hn, hrep, h5, hdup]
              · simp [finishSegments, hacc, hn, hrep, h5, hdup]
            · have hdup2 : ¬ tl.trim.toLower = st.prev_out.trim.toLower := by
                rw [← hrep.1]
                exact hdup
              refine ⟨⟨[format_segment st.timestamp_offset (st.timestamp_offset + d) last.text],
                by simp, ?_, ?_, ?_⟩, fun h => absurd hn h⟩
              · simp [finishSegments, hacc, hn, hrep, h5, hdup, hdup2, format_segment]
              · simp [finishSegments, hacc, hn, hrep, h5, hdup, hdup2]
              · intro e he
                rw [List.mem_singleton] at he
                subst he
                exact ⟨hn, rfl, rfl, rfl⟩
      · refine ⟨⟨[], by simp, ?_, ?_, by simp⟩, fun h => absurd hn h⟩
        · simp [finishSegments, hn, hrep, h5]
        · simp [finishSegments, hn, hrep, h5]
    · refine ⟨⟨[], by simp, ?_, ?_, by simp⟩, fun h => absurd hn h⟩
      · simp [finishSegments, hn, hrep]
      · simp [finishSegments, hn, hrep]
  · refine ⟨⟨[], by simp, ?_, ?_, by simp⟩, fun _ => ?_⟩
    · simp [finishSegments, hn]
    · simp [finishSegments, hn]
    · simp [finishSegments, hn]

/-- C9: for every stabilizer call, the text of every non-last raw segment is
appended to the session's text history before the zero-length and no-speech
filters run, so the history grows by exactly one entry per non-last segment
(plus at most one entry from a commit-on-stability), regardless of whether
those segments were committed to the transcript. -/
theorem C9_text_history_growth (st : SessionState) (segments : List RawSeg) (d : ℚ) :
    ∃ tail : List String, tail.length ≤ 1 ∧
      (update_segments st segments d).1.text
        = st.text ++ segments.dropLast.map RawSeg.text ++ tail := by
  cases hgl : segments.getLast? with
  | none =>
      have hnil : segments = [] := by
        cases segments with
        | nil => rfl
        | cons a t => exact absurd hgl (by simp)
      subst hnil
      exact ⟨[], by simp, by simp [update_segments]⟩
  | some last =>
      obtain ⟨htext, -⟩ := foldl_processComplete st.timestamp_offset d segments.dropLast
        (st.text, st.transcript, none)
      obtain ⟨⟨extra, hlen, hft, -, -⟩, -⟩ :=
        finishSegments_cases st last d (afterComplete st segments d)
      refine ⟨extra.map Segment.text, by simpa using hlen, ?_⟩
      simp only [update_segments, hgl]
      rw [hft]
      have haccf : (afterComplete st segments d).1
          = st.text ++ segments.dropLast.map RawSeg.text := by
        simp only [afterComplete]
        simpa using htext
      rw [haccf]

/-- C5: a raw segment whose no-speech probability exceeds the threshold never
produces a committed transcript entry (every entry a call appends traces to a
below-threshold segment of that call) and, when it is the last (tentative)
segment, the call returns no tentative segment. -/
theorem C5_above_threshold_never_commits (st : SessionState) (segments : List RawSeg)
    (d : ℚ) (h : segments ≠ []) :
    (∃ delta, (update_segments st segments d).1.transcript = st.transcript ++ delta ∧
        ∀ e ∈ delta, ∃ s ∈ segments, s.no_speech_prob ≤ no_speech_thresh ∧
          e.text = s.text) ∧
      ((segments.getLast h).no_speech_prob > no_speech_thresh →
        (update_segments st segments d).2 = none) := by
  have hgl : segments.getLast? = some (segments.getLast h) :=
    List.getLast?_eq_getLast segments h
  obtain ⟨-, new, htr, hp⟩ := foldl_processComplete st.timestamp_offset d
    segments.dropLast (st.text, st.transcript, none)
  obtain ⟨⟨extra, hlen, -, hftr, hprop⟩, hnone⟩ :=
    finishSegments_cases st (segments.getLast h) d (afterComplete st segments d)
  have haccr : (afterComplete st segments d).2.1 = st.transcript ++ new := by
    simp only [afterComplete]
    simpa using htr
  constructor
  · refine ⟨new ++ extra, ?_, ?_⟩
    · simp only [update_segments, hgl]
      rw [hftr, haccr, List.append_assoc]
    · intro e he
      rcases List.mem_append.mp he with he | he
      · obtain ⟨s, hs, hnsp, htxt, -⟩ := hp e he
        exact ⟨s, List.dropLast_subset _ hs, hnsp, htxt⟩
      · obtain ⟨hnsp, htxt, -, -⟩ := hprop e he
        exact ⟨segments.getLast h, List.getLast_mem h, hnsp, htxt⟩
  · intro hgt
    simp only [update_segments, hgl]
    exact hnone (not_le.mpr hgt)

/-- Witness for `C5_above_threshold_never_commits`: a single raw segment with
no-speech probability 0.5 > 0.45 yields no tentative segment. -/
theorem C5_above_threshold_never_commits_witness :
    ([⟨0, 1, "hi", 1 / 2⟩] : List RawSeg) ≠ [] ∧
      (update_segments initState [⟨0, 1, "hi", 1 / 2⟩] 2).2 = none := by
  have h : ([⟨0, 1, "hi", 1 / 2⟩] : List RawSeg) ≠ [] := by simp
  refine ⟨h, (C5_above_threshold_never_commits initState _ 2 h).2 ?_⟩
  show (1 / 2 : ℚ) > no_speech_thresh
  norm_num [no_speech_thresh]

/-- One stabilizer call preserves the invariant that every committed entry
ends strictly after it starts, provided the chunk duration is positive:
complete-segment entries are guarded by the `start >= end` skip, and the
commit-on-stability entry spans the full positive duration. -/
theorem update_preserves_end_gt_start (st : SessionState) (segs : List RawSeg) (d : ℚ)
    (hd : 0 < d) (hst : ∀ e ∈ st.transcript, e.start < e.end_) :
    ∀ e ∈ (update_segments st segs d).1.transcript, e.start < e.end_ := by
  cases hgl : segs.getLast? with
  | none =>
      intro e he
      apply hst
      simpa [update_segments, hgl] using he
  | some last =>
      obtain ⟨-, new, htr, hp⟩ := foldl_processComplete st.timestamp_offset d
        segs.dropLast (st.text, st.transcript, none)
      obtain ⟨⟨extra, -, -, hftr, hprop⟩, -⟩ :=
        finishSegments_cases st last d (afterComplete st segs d)
      have haccr : (afterComplete st segs d).2.1 = st.transcript ++ new := by
        simp only [afterComplete]
        simpa using htr
      intro e he
      simp only [update_segments, hgl] at he
      rw [hftr, haccr] at he
      rcases List.mem_append.mp he with he | he
      · rcases List.mem_append.mp he with he | he
        · exact hst e he
        · obtain ⟨-, -, -, -, -, -, hlt⟩ := hp e he
          exact hlt
      · obtain ⟨-, -, hs, he2⟩ := hprop e he
        rw [hs, he2]
        linarith

/-- C3 amended: for every sequence of stabilizer invocations with positive
durations starting from a fresh session, every committed entry satisfies
`end > start`.  (The non-decreasing-starts half of the original claim is
false — see the counterexample — because a commit-on-stability entry starts
at `processedCursor`, which can precede a complete segment committed in the
same call.) -/
theorem C3_entries_end_gt_start (calls : List (List RawSeg × ℚ))
    (hd : ∀ c ∈ calls, 0 < c.2) :
    ∀ e ∈ (run_calls initState calls).transcript, e.start < e.end_ := by
  suffices h : ∀ (cs : List (List RawSeg × ℚ)) (st : SessionState),
      (∀ c ∈ cs, 0 < c.2) → (∀ e ∈ st.transcript, e.start < e.end_) →
      ∀ e ∈ (run_calls st cs).transcript, e.start < e.end_ by
    exact h calls initState hd (by simp [initState])
  intro cs
  induction cs with
  | nil =>
      intro st _ hst
      simpa [run_calls] using hst
  | cons c t ih =>
      intro st hc hst
      have hcons : run_calls st (c :: t) = run_calls (update_segments st c.1 c.2).1 t := rfl
      rw [hcons]
      exact ih _ (fun x hx => hc x (List.mem_cons_of_mem _ hx))
        (update_preserves_end_gt_start st c.1 c.2 (hc c (List.mem_cons_self _ _)) hst)

/-- Witness for `C3_entries_end_gt_start`: the end-to-end scenario's single
call commits `{0, 1, "hi"}`, and 0 < 1. -/
theorem C3_entries_end_gt_start_witness :
    (∀ c ∈ [(c8segs, (2 : ℚ))], 0 < c.2) ∧
      (format_segment 0 1 "hi").start < (format_segment 0 1 "hi").end_ := by
  have hc : ∀ c ∈ [(c8segs, (2 : ℚ))], 0 < c.2 := by
    intro c hcm
    rw [List.mem_singleton] at hcm
    subst hcm
    norm_num
  have htr : (run_calls initState [(c8segs, 2)]).transcript = [format_segment 0 1 "hi"] := by
    with_unfolding_all rfl
  refine ⟨hc, ?_⟩
  exact C3_entries_end_gt_start [(c8segs, 2)] hc (format_segment 0 1 "hi")
    (by rw [htr]; exact List.mem_singleton.mpr rfl)

/-- Python's `int(q)` on a float: truncation toward zero. -/
def pyInt (q : ℚ) : ℤ := if 0 ≤ q then ⌊q⌋ else ⌈q⌉

/-- Python's `l[i:]` slice: for a negative index the start is `len + i`,
clamped at 0. -/
def pySliceFrom (l : List ℚ) (i : ℤ) : List ℚ :=
  if 0 ≤ i then l.drop i.toNat else l.drop ((l.length : ℤ) + i).toNat

/-- `ServeClientBase.clip_audio_if_no_valid_segment()`.  The source would
raise a `TypeError` on a `None` buffer; the worker loop only calls it after
`frames_np` is set, so the `none` branch is never reached by callers. -/
def clip_audio_if_no_valid_segment (st : SessionState) : SessionState :=
  match st.frames_np with
  | none => st
  | some fs =>
      let chunk := pySliceFrom fs
        (pyInt ((st.timestamp_offset - st.frames_offset) * (RATE : ℚ)))
      if 25 * RATE < chunk.length then
        { st with timestamp_offset :=
            st.frames_offset + (fs.length : ℚ) / (RATE : ℚ) - 5 }
      else st

/-- C6: when the unprocessed region (window length minus
`(processedCursor - bufferOrigin)` in samples) exceeds 25 seconds,
`clip_audio_if_no_valid_segment` snaps `processedCursor` to
`bufferOrigin + windowDurationSeconds - 5`, which never falls below
`bufferOrigin`; when the unprocessed region is at most 25 seconds the state
is unchanged.  (The source's floored slice index makes its trigger condition
exactly equivalent to the spec's exact-arithmetic condition.) -/
theorem C6_clip_if_stalled (st : SessionState) (fs : List ℚ)
    (hf : st.frames_np = some fs) (hinv : st.frames_offset ≤ st.timestamp_offset) :
    ((25 * RATE : ℚ) < (fs.length : ℚ)
          - (st.timestamp_offset - st.frames_offset) * RATE →
      (clip_audio_if_no_valid_segment st).timestamp_offset
          = st.frames_offset + (fs.length : ℚ) / RATE - 5 ∧
        st.frames_offset ≤ (clip_audio_if_no_valid_segment st).timestamp_offset) ∧
    ((fs.length : ℚ) - (st.timestamp_offset - st.frames_offset) * RATE
          ≤ 25 * RATE →
      clip_audio_if_no_valid_segment st = st) := by
  set x : ℚ := (st.timestamp_offset - st.frames_offset) * (RATE : ℚ) with hxdef
  have hx : 0 ≤ x := mul_nonneg (sub_nonneg.mpr hinv) (by positivity)
  have hfl : (0 : ℤ) ≤ ⌊x⌋ := Int.floor_nonneg.mpr hx
  have hmz : ((⌊x⌋.toNat : ℤ)) = ⌊x⌋ := Int.toNat_of_nonneg hfl
  have hm : ((⌊x⌋.toNat : ℚ)) ≤ x := by
    have h := Int.floor_le x
    rw [← hmz] at h
    exact_mod_cast h
  have hm2 : x < (⌊x⌋.toNat : ℚ) + 1 := by
    have h := Int.lt_floor_add_one x
    rw [← hmz] at h
    exact_mod_cast h
  have hlen : (pySliceFrom fs (pyInt x)).length = fs.length - ⌊x⌋.toNat := by
    rw [pyInt, if_pos hx, pySliceFrom, if_pos hfl, List.length_drop]
  have hiff : 25 * RATE < fs.length - ⌊x⌋.toNat
      ↔ (25 * RATE : ℚ) < (fs.length : ℚ) - x := by
    constructor
    · intro hlt
      have h1 : 25 * RATE + ⌊x⌋.toNat + 1 ≤ fs.length := by omega
      have h1q : (25 * RATE : ℚ) + (⌊x⌋.toNat : ℚ) + 1 ≤ (fs.length : ℚ) := by
        exact_mod_cast h1
      linarith
    · intro hlt
      have h1q : (25 * RATE : ℚ) + (⌊x⌋.toNat : ℚ) < (fs.length : ℚ) := by linarith
      have h1 : 25 * RATE + ⌊x⌋.toNat < fs.length := by exact_mod_cast h1q
      omega
  constructor
  · intro h
    have hcode : 25 * RATE < fs.length - ⌊x⌋.toNat := hiff.mpr h
    have hred : clip_audio_if_no_valid_segment st
        = { st with timestamp_offset :=
            st.frames_offset + (fs.length : ℚ) / (RATE : ℚ) - 5 } := by
      simp only [clip_audio_if_no_valid_segment, hf, ← hxdef, hlen]
      rw [if_pos hcode]
    rw [hred]
    refine ⟨rfl, ?_⟩
    show st.frames_offset ≤ st.frames_offset + (fs.length : ℚ) / (RATE : ℚ) - 5
    have hR : (0 : ℚ) < (RATE : ℚ) := by norm_num [RATE]
    have hn : (25 * RATE : ℚ) < (fs.length : ℚ) := by linarith
    have h25 : (25 : ℚ) < (fs.length : ℚ) / RATE := by
      rw [lt_div_iff hR]
      linarith
    linarith
  · intro h
    have hcode : ¬ 25 * RATE < fs.length - ⌊x⌋.toNat := by
      rw [hiff]
      exact not_lt.mpr h
    simp only [clip_audio_if_no_valid_segment, hf, ← hxdef, hlen]
    rw [if_neg hcode]

/-- Witness for `C6_clip_if_stalled`: a fresh session (both offsets 0,
hence `bufferOrigin ≤ processedCursor`) holding 26 seconds of silence has an
unprocessed region of 26 s > 25 s, and the clip moves the cursor to
`0 + 26 - 5 = 21`. -/
theorem C6_clip_if_stalled_witness :
    (0 : ℚ) ≤ 0 ∧
      (clip_audio_if_no_valid_segment
        { initState with frames_np := some (List.replicate (26 * RATE) (0 : ℚ)) }).timestamp_offset
        = 21 := by
  have hlen : (List.replicate (26 * RATE) (0 : ℚ)).length = 26 * RATE :=
    List.length_replicate _ _
  have hcond : (25 * RATE : ℚ)
      < (((List.replicate (26 * RATE) (0 : ℚ)).length : ℚ))
        - (({ initState with frames_np := some (List.replicate (26 * RATE) (0 : ℚ)) }
            : SessionState).timestamp_offset
          - ({ initState with frames_np := some (List.replicate (26 * RATE) (0 : ℚ)) }
            : SessionState).frames_offset) * RATE := by
    rw [hlen]
    show (25 * RATE : ℚ) < ((26 * RATE : ℕ) : ℚ) - ((0 : ℚ) - 0) * RATE
    push_cast
    norm_num [RATE]
  have happ := (C6_clip_if_stalled
    { initState with frames_np := some (List.replicate (26 * RATE) (0 : ℚ)) }
    (List.replicate (26 * RATE) (0 : ℚ)) rfl (le_refl 0)).1 hcond
  refine ⟨le_refl 0, ?_⟩
  rw [happ.1, hlen]
  show (0 : ℚ) + ((26 * RATE : ℕ) : ℚ) / RATE - 5 = 21
  push_cast
  norm_num [RATE]

/-- Outbound websocket messages relevant to the registry claims: the
`{"status": "WAIT", "message": minutes}` response and the
`{"message": "DISCONNECT"}` notice, each tagged with the client uid. -/
inductive ServerMsg where
  | wait (uid : String) (minutes : ℚ)
  | disconnectNotice (uid : String)
deriving DecidableEq

/-- `ClientManager` state: `clients` maps a websocket (modelled as ℕ) to its
client, abstracted to the client's uid — the only client attribute the
registry claims read; `start_times` maps a websocket to its admission time.
Python dicts have unique keys, so each websocket occurs at most once. -/
structure ClientManager where
  clients : List (ℕ × String)
  start_times : List (ℕ × ℚ)
  max_clients : ℕ
  max_connection_time : ℚ
deriving DecidableEq

/-- The body of the `for start_time in self.start_times.values()` loop in
`ClientManager.get_wait_time`: keep the smallest remaining connection time.
`time.time()` is modelled by the single parameter `now`. -/
def wait_step (M now : ℚ) (w : Option ℚ) (p : ℕ × ℚ) : Option ℚ :=
  let rem := M - (now - p.2)
  match w with
  | none => some rem
  | some w0 => if rem < w0 then some rem else some w0

/-- `ClientManager.get_wait_time()`: minimum over all current sessions of
`max_connection_time - elapsed`, divided by 60; 0 when no sessions exist.
No flooring at 0 happens anywhere. -/
def get_wait_time (cm : ClientManager) (now : ℚ) : ℚ :=
  match cm.start_times.foldl (wait_step cm.max_connection_time now) none with
  | some w => w / 60
  | none => 0

/-- `ClientManager.is_server_full(websocket, options)`: at capacity, sends the
`WAIT` message carrying `get_wait_time()` and reports full. -/
def is_server_full (cm : ClientManager) (uid : String) (now : ℚ) :
    Bool × List ServerMsg :=
  if cm.max_clients ≤ cm.clients.length then
    (true, [ServerMsg.wait uid (get_wait_time cm now)])
  else (false, [])

/-- `ClientManager.is_client_timeout(websocket)`: reads
`self.start_times[websocket]` — a `KeyError` (modelled as `none`) when the
websocket has no entry — and on timeout calls `disconnect()` on
`self.clients[websocket]` (again a `KeyError` when absent), which sends the
`DISCONNECT` notice, before returning `True`. -/
def is_client_timeout (cm : ClientManager) (ws : ℕ) (now : ℚ) :
    Option (Bool × List ServerMsg) :=
  match cm.start_times.lookup ws with
  | none => none
  | some t0 =>
      if cm.max_connection_time ≤ now - t0 then
        match cm.clients.lookup ws with
        | none => none
        | some uid => some (true, [ServerMsg.disconnectNotice uid])
      else some (false, [])

/-- `ClientManager.remove_client(websocket)`: `dict.pop` removes the (unique)
entry for the key from both tables; the popped client's `cleanup()` only sets
its exit flag. -/
def remove_client (cm : ClientManager) (ws : ℕ) : ClientManager :=
  { cm with
      clients := cm.clients.filter (fun p => p.1 != ws)
      start_times := cm.start_times.filter (fun p => p.1 != ws) }

/-- One round of `TranscriptionServer.recv_audio`'s lifetime handling: the
`while not self.client_manager.is_client_timeout(websocket)` check — whose
`disconnect()` notice is sent inside the check, BEFORE any removal — followed,
when the loop exits, by the `finally`-block cleanup that removes the client. -/
def check_timeout_step (cm : ClientManager) (ws : ℕ) (now : ℚ) :
    Option (ClientManager × List ServerMsg) :=
  match is_client_timeout cm ws now with
  | none => none
  | some (true, msgs) => some (remove_client cm ws, msgs)
  | some (false, msgs) => some (cm, msgs)

/-- Looking up a key in a table from which it was just filtered out finds
nothing. -/
theorem lookup_filter_ne {α : Type} (l : List (ℕ × α)) (ws : ℕ) :
    (l.filter (fun p => p.1 != ws)).lookup ws = none := by
  induction l with
  | nil => rfl
  | cons p t ih =>
      obtain ⟨k, v⟩ := p
      by_cases h : k = ws
      · simp [List.filter_cons, h, ih]
      · have hb : (ws == k) = false := beq_eq_false_iff_ne.mpr (Ne.symm h)
        simp [List.filter_cons, h, ih, List.lookup, hb]

/-- A sample client uid used in concrete registry scenarios. -/
def waitUid : String := "u"

/-- C4 as stated is false on the code: `get_wait_time` never floors at 0.
With one admitted session whose elapsed time (660 s) exceeds its 600 s
lifetime, the estimate returned on rejection is -1 minute, which is
negative. -/
theorem C4_wait_time_can_be_negative :
    get_wait_time ⟨[(0, waitUid)], [(0, 0)], 1, 600⟩ 660 = -1 ∧
      is_server_full ⟨[(0, waitUid)], [(0, 0)], 1, 600⟩ waitUid 660
        = (true, [ServerMsg.wait waitUid (-1)]) ∧
      (-1 : ℚ) < 0 := by
  refine ⟨?_, ?_, by norm_num⟩
  · with_unfolding_all rfl
  · with_unfolding_all rfl

/-- Folding `wait_step` from a seeded minimum computes the minimum of the seed
and all remaining-time values. -/
theorem foldl_wait_step_min (M now : ℚ) :
    ∀ (l : List (ℕ × ℚ)) (w0 : ℚ), ∃ w,
      l.foldl (wait_step M now) (some w0) = some w ∧
      (w = w0 ∨ ∃ p ∈ l, w = M - (now - p.2)) ∧
      w ≤ w0 ∧ ∀ p ∈ l, w ≤ M - (now - p.2) := by
  intro l
  induction l with
  | nil =>
      intro w0
      exact ⟨w0, rfl, Or.inl rfl, le_refl w0, by simp⟩
  | cons p t ih =>
      intro w0
      rw [List.foldl_cons]
      by_cases h : M - (now - p.2) < w0
      · have hstep : wait_step M now (some w0) p = some (M - (now - p.2)) := by
          simp [wait_step, h]
        rw [hstep]
        obtain ⟨w, hw, hor, hle, hall⟩ := ih (M - (now - p.2))
        refine ⟨w, hw, ?_, le_of_lt (lt_of_le_of_lt hle h), ?_⟩
        · rcases hor with hw0 | ⟨q, hq, hqe⟩
          · exact Or.inr ⟨p, List.mem_cons_self p t, hw0⟩
          · exact Or.inr ⟨q, List.mem_cons_of_mem _ hq, hqe⟩
        · intro q hq
          rcases List.mem_cons.mp hq with hq | hq
          · subst hq
            exact hle
          · exact hall q hq
      · have hstep : wait_step M now (some w0) p = some w0 := by
          simp [wait_step, h]
        rw [hstep]
        obtain ⟨w, hw, hor, hle, hall⟩ := ih w0
        refine ⟨w, hw, ?_, hle, ?_⟩
        · rcases hor with hw0 | ⟨q, hq, hqe⟩
          · exact Or.inl hw0
          · exact Or.inr ⟨q, List.mem_cons_of_mem _ hq, hqe⟩
        · intro q hq
          rcases List.mem_cons.mp hq with hq | hq
          · subst hq
            exact le_trans hle (not_lt.mp h)
          · exact hall q hq

/-- C4 amended: the estimate equals the minimum over all current sessions of
`(maxLifetime - elapsed) / 60`, with NO flooring at 0 (it is negative whenever
some session has outlived its lifetime), and equals 0 when no sessions
exist. -/
theorem C4_wait_time_is_min (cm : ClientManager) (now : ℚ) :
    (cm.start_times = [] → get_wait_time cm now = 0) ∧
      (cm.start_times ≠ [] → ∃ p ∈ cm.start_times,
        get_wait_time cm now = (cm.max_connection_time - (now - p.2)) / 60 ∧
        ∀ q ∈ cm.start_times,
          get_wait_time cm now ≤ (cm.max_connection_time - (now - q.2)) / 60) := by
  constructor
  · intro h
    simp [get_wait_time, h]
  · intro h
    cases hl : cm.start_times with
    | nil => exact absurd hl h
    | cons p t =>
        have hfirst : wait_step cm.max_connection_time now none p
            = some (cm.max_connection_time - (now - p.2)) := rfl
        obtain ⟨w, hw, hor, hle, hall⟩ :=
          foldl_wait_step_min cm.max_connection_time now t
            (cm.max_connection_time - (now - p.2))
        have hgw : get_wait_time cm now = w / 60 := by
          simp only [get_wait_time, hl, List.foldl_cons, hfirst, hw]
        have h60 : (0 : ℚ) < 60 := by norm_num
        have hmono : ∀ q ∈ p :: t, w / 60
            ≤ (cm.max_connection_time - (now - q.2)) / 60 := by
          intro q hq
          rcases List.mem_cons.mp hq with hq | hq
          · subst hq
            exact (div_le_div_right h60).mpr hle
          · exact (div_le_div_right h60).mpr (hall q hq)
        rcases hor with hw0 | ⟨q, hq, hqe⟩
        · refine ⟨p, List.mem_cons_self p t, ?_, ?_⟩
          · rw [hgw, hw0]
          · intro q hq
            rw [hgw]
            exact hmono q hq
        · refine ⟨q, List.mem_cons_of_mem _ hq, ?_, ?_⟩
          · rw [hgw, hqe]
          · intro r hr
            rw [hgw]
            exact hmono r hr

/-- Witness for `C4_wait_time_is_min`: one session admitted at time 0,
queried at time 60 with a 600 s lifetime: the estimate is (600 - 60)/60
minutes. -/
theorem C4_wait_time_is_min_witness :
    ((⟨[(0, waitUid)], [(0, 0)], 1, 600⟩ : ClientManager).start_times ≠ []) ∧
      get_wait_time ⟨[(0, waitUid)], [(0, 0)], 1, 600⟩ 60 = (600 - (60 - 0)) / 60 := by
  have hne : ((⟨[(0, waitUid)], [(0, 0)], 1, 600⟩ : ClientManager).start_times ≠ []) := by
    show ([((0 : ℕ), (0 : ℚ))] : List (ℕ × ℚ)) ≠ []
    simp
  refine ⟨hne, ?_⟩
  obtain ⟨p, hp, heq, -⟩ :=
    (C4_wait_time_is_min ⟨[(0, waitUid)], [(0, 0)], 1, 600⟩ 60).2 hne
  have hp2 : p = ((0 : ℕ), (0 : ℚ)) := List.mem_singleton.mp hp
  subst hp2
  exact heq

/-- C7: for an admitted session (an entry in both registry tables) with the
default 600 s lifetime, the timeout check returns true exactly when
`now - admittedAt >= 600`, sending the `DISCONNECT` notice inside the check —
before the cleanup removes the session; the session is still present (state
unchanged, no message) at `t0 + 599` and removed from both tables at
`t0 + 601`. -/
theorem C7_lifetime_eviction (cm : ClientManager) (ws : ℕ) (uid : String) (t0 : ℚ)
    (hmax : cm.max_connection_time = 600)
    (hs : cm.start_times.lookup ws = some t0)
    (hc : cm.clients.lookup ws = some uid) :
    (∀ now : ℚ,
      (is_client_timeout cm ws now = some (true, [ServerMsg.disconnectNotice uid])
          ↔ 600 ≤ now - t0) ∧
      (is_client_timeout cm ws now = some (false, []) ↔ ¬ 600 ≤ now - t0)) ∧
      check_timeout_step cm ws (t0 + 599) = some (cm, []) ∧
      check_timeout_step cm ws (t0 + 601)
          = some (remove_client cm ws, [ServerMsg.disconnectNotice uid]) ∧
      (remove_client cm ws).start_times.lookup ws = none ∧
      (remove_client cm ws).clients.lookup ws = none := by
  have hforward : ∀ now : ℚ, 600 ≤ now - t0 →
      is_client_timeout cm ws now = some (true, [ServerMsg.disconnectNotice uid]) := by
    intro now h
    simp [is_client_timeout, hs, hc, hmax, h]
  have hbackward : ∀ now : ℚ, ¬ 600 ≤ now - t0 →
      is_client_timeout cm ws now = some (false, []) := by
    intro now h
    simp [is_client_timeout, hs, hmax, h]
  have h599 : ¬ (600 : ℚ) ≤ t0 + 599 - t0 := by
    have he : t0 + 599 - t0 = (599 : ℚ) := by ring
    rw [he]
    norm_num
  have h601 : (600 : ℚ) ≤ t0 + 601 - t0 := by
    have he : t0 + 601 - t0 = (601 : ℚ) := by ring
    rw [he]
    norm_num
  refine ⟨?_, ?_, ?_, lookup_filter_ne _ _, lookup_filter_ne _ _⟩
  · intro now
    constructor
    · constructor
      · intro h
        by_cases hnow : 600 ≤ now - t0
        · exact hnow
        · rw [hbackward now hnow] at h
          exact absurd h (by simp)
      · exact hforward now
    · constructor
      · intro h
        by_cases hnow : 600 ≤ now - t0
        · rw [hforward now hnow] at h
          exact absurd h (by simp)
        · exact hnow
      · exact hbackward now
  · simp [check_timeout_step, hbackward _ h599]
  · simp [check_timeout_step, hforward _ h601]

/-- Witness for `C7_lifetime_eviction`: one session admitted at `t0 = 10`
with the default lifetime is removed, with the `DISCONNECT` notice, when
checked at `t0 + 601`. -/
theorem C7_lifetime_eviction_witness :
    ((⟨[(0, waitUid)], [(0, 10)], 4, 600⟩ : ClientManager).max_connection_time = 600) ∧
      check_timeout_step ⟨[(0, waitUid)], [(0, 10)], 4, 600⟩ 0 (10 + 601)
        = some (remove_client ⟨[(0, waitUid)], [(0, 10)], 4, 600⟩ 0,
            [ServerMsg.disconnectNotice waitUid]) :=
  ⟨rfl, (C7_lifetime_eviction ⟨[(0, waitUid)], [(0, 10)], 4, 600⟩ 0 waitUid 10
    rfl rfl rfl).2.2.1⟩

/-- C10: the timeout check is total only for websockets present in
`start_times`: with no entry (never admitted, or already removed by
`remove_client`) the lookup `self.start_times[websocket]` raises a `KeyError`
(modelled as `none`) instead of returning a boolean. -/
theorem C10_timeout_requires_entry (cm : ClientManager) (ws : ℕ) (now : ℚ) :
    (cm.start_times.lookup ws = none → is_client_timeout cm ws now = none) ∧
      is_client_timeout (remove_client cm ws) ws now = none := by
  constructor
  · intro h
    simp [is_client_timeout, h]
  · simp [is_client_timeout, remove_client, lookup_filter_ne]

/-- Witness for `C10_timeout_requires_entry`: an empty registry has no entry
for websocket 0, and the check yields no boolean. -/
theorem C10_timeout_requires_entry_witness :
    ((⟨[], [], 4, 600⟩ : ClientManager).start_times.lookup 0 = none) ∧
      is_client_timeout ⟨[], [], 4, 600⟩ 0 0 = none :=
  ⟨rfl, (C10_timeout_requires_entry ⟨[], [], 4, 600⟩ 0 0).1 rfl⟩
